import Mathlib

/-!
Verification development for the color-perception analysis application
(`analysis_app.py`).  The statistical core of the script is embedded
shallowly: a dataset is a list of rows with optional cell values, the
pandas aggregations become explicit list computations over `Nat`/`ℚ`,
and the scipy chi-squared test is embedded at the one-row shape the
application actually passes to it.  Float NaN/inf semantics needed by
`cramers_v` are modelled by the small type `FQ`.
-/

namespace ColorAnalysis

/-! ### Generic list helpers -/

/-- The distinct elements of a list, keeping the first occurrence of each
(the order in which a hash-based groupby first meets each key). -/
def firstSeen {α : Type} [DecidableEq α] : List α → List α
  | [] => []
  | x :: xs => x :: (firstSeen xs).filter (fun y => decide (y ≠ x))

theorem mem_firstSeen {α : Type} [DecidableEq α] (a : α) :
    ∀ l : List α, a ∈ firstSeen l ↔ a ∈ l := by
  intro l
  induction l with
  | nil => simp [firstSeen]
  | cons x xs ih =>
    simp only [firstSeen, List.mem_cons, List.mem_filter, ih, decide_eq_true_eq]
    constructor
    · rintro (h | ⟨h, _⟩)
      · exact Or.inl h
      · exact Or.inr h
    · rintro (h | h)
      · exact Or.inl h
      · by_cases hx : a = x
        · exact Or.inl hx
        · exact Or.inr ⟨h, hx⟩

theorem nodup_firstSeen {α : Type} [DecidableEq α] :
    ∀ l : List α, (firstSeen l).Nodup := by
  intro l
  induction l with
  | nil => simp [firstSeen]
  | cons x xs ih =>
    simp only [firstSeen, List.nodup_cons]
    refine ⟨?_, ih.filter _⟩
    intro hmem
    have := (List.mem_filter.mp hmem).2
    simp at this

theorem firstSeen_eq_nil_iff {α : Type} [DecidableEq α] (l : List α) :
    firstSeen l = [] ↔ l = [] := by
  cases l with
  | nil => simp [firstSeen]
  | cons x xs => simp [firstSeen]

/-- Summing a pointwise sum of two `Nat`-valued maps over a list. -/
theorem sum_map_add {α : Type} (L : List α) (f g : α → ℕ) :
    (L.map (fun a => f a + g a)).sum = (L.map f).sum + (L.map g).sum := by
  induction L with
  | nil => simp
  | cons x xs ih => simp [ih]; omega

/-- Over a duplicate-free list containing `a0`, the indicator of `a0` sums
to one. -/
theorem sum_indicator_one {α : Type} [DecidableEq α] :
    ∀ (L : List α), L.Nodup → ∀ a0 : α, a0 ∈ L →
      (L.map (fun a => if a0 = a then 1 else 0)).sum = 1 := by
  intro L
  induction L with
  | nil => intro _ a0 h; cases h
  | cons x xs ih =>
    intro hnd a0 hmem
    have hnd2 := List.nodup_cons.mp hnd
    rcases List.mem_cons.mp hmem with h1 | h1
    · subst h1
      have hz : ∀ a ∈ xs, (if a0 = a then 1 else 0) = 0 := by
        intro a ha
        have : a0 ≠ a := fun e => hnd2.1 (e ▸ ha)
        simp [this]
      have : (xs.map (fun a => if a0 = a then 1 else 0)).sum = 0 := by
        apply List.sum_eq_zero
        intro y hy
        rcases List.mem_map.mp hy with ⟨a, ha, rfl⟩
        exact hz a ha
      simp [this]
    · have hne : a0 ≠ x := by
        intro e; exact hnd2.1 (e ▸ h1)
      simp [hne, ih hnd2.2 a0 h1]

/-- Partition-counting: splitting the rows satisfying `p` according to the
value of `g`, where every such row has a `g`-value in the duplicate-free
label list `L`, recovers the total count. -/
theorem sum_countP_partition {α β : Type} [DecidableEq α] (p : β → Bool)
    (g : β → Option α) :
    ∀ (rows : List β) (L : List α), L.Nodup →
    (∀ r ∈ rows, p r = true → ∃ a ∈ L, g r = some a) →
    (L.map (fun a => rows.countP (fun r => p r && (g r == some a)))).sum
      = rows.countP p := by
  intro rows
  induction rows with
  | nil => intro L _ _; simp [List.countP_nil]
  | cons r rs ih =>
    intro L hnd hcov
    have hcov2 : ∀ x ∈ rs, p x = true → ∃ a ∈ L, g x = some a := by
      intro x hx hp; exact hcov x (List.mem_cons_of_mem _ hx) hp
    have hsplit : ∀ a : α,
        (r :: rs).countP (fun x => p x && (g x == some a))
          = rs.countP (fun x => p x && (g x == some a))
            + (if p r && (g r == some a) then 1 else 0) := by
      intro a
      rw [List.countP_cons]
    have hmap : (L.map (fun a => (r :: rs).countP (fun x => p x && (g x == some a))))
        = L.map (fun a => rs.countP (fun x => p x && (g x == some a))
            + (if p r && (g r == some a) then 1 else 0)) := by
      apply List.map_congr_left
      intro a _
      exact hsplit a
    rw [hmap, sum_map_add, ih L hnd hcov2, List.countP_cons]
    congr 1
    by_cases hp : p r = true
    · rcases hcov r (List.mem_cons_self r rs) hp with ⟨a0, ha0, hg⟩
      have : ∀ a : α, (if p r && (g r == some a) then 1 else 0)
          = (if a0 = a then 1 else 0) := by
        intro a
        simp only [hp, hg, Bool.true_and]
        by_cases h : a0 = a
        · subst h; simp
        · have : (some a0 == some a) = false := by
            simp [h]
          simp [this, h]
      rw [List.map_congr_left (fun a _ => this a), sum_indicator_one L hnd a0 ha0]
      simp [hp]
    · have hp2 : p r = false := by
        cases h2 : p r
        · rfl
        · exact absurd h2 hp
      have : ∀ a : α, (if p r && (g r == some a) then 1 else 0) = 0 := by
        intro a; simp [hp2]
      have hz : (L.map (fun a => if p r && (g r == some a) then 1 else 0)).sum = 0 := by
        apply List.sum_eq_zero
        intro y hy
        rcases List.mem_map.mp hy with ⟨a, _, rfl⟩
        exact this a
      rw [hz]
      simp [hp2]

/-! ### Data model

A dataset is the uploaded CSV: a header (list of column names) and a
list of rows.  Each row carries the three cell values the computation
reads; a missing/NaN cell is `none`.  The `repeat` column is only ever
tested for presence (line 170 of the source), never read, so it has no
row field. -/

structure Row where
  selected_color_space : Option String
  object : Option String
  user_id : Option String
deriving DecidableEq, Repr

structure Dataset where
  columns : List String
  rows : List Row
deriving DecidableEq, Repr

/-- Line 28: `required_columns = ['selected_color_space', 'object']`. -/
def required_columns : List String := ["selected_color_space", "object"]

/-- Line 29: `missing_columns = [col for col in required_columns if col not in
data.columns]`. -/
def missing_columns (ds : Dataset) : List String :=
  required_columns.filter (fun c => !(ds.columns.contains c))

/-! ### Frequency aggregation (lines 41 and 58) -/

/-- The non-null values of the `selected_color_space` column. -/
def selections (ds : Dataset) : List String :=
  ds.rows.filterMap (fun r => r.selected_color_space)

/-- The comparison used by `value_counts`: descending count. -/
def countGe (a b : String × ℕ) : Prop := b.2 ≤ a.2

instance : DecidableRel countGe := fun a b => Nat.decLe b.2 a.2

instance : IsTotal (String × ℕ) countGe := ⟨fun a b => le_total b.2 a.2⟩

instance : IsTrans (String × ℕ) countGe := ⟨fun _ _ _ h1 h2 => le_trans h2 h1⟩

/-- Line 41: `color_counts = data['selected_color_space'].value_counts()`.
`value_counts` drops nulls, tabulates each distinct value's multiplicity
and sorts the entries by descending count. -/
def color_counts (ds : Dataset) : List (String × ℕ) :=
  List.insertionSort countGe
    ((firstSeen (selections ds)).map (fun c => (c, (selections ds).count c)))

/-- Line 58: `color_percentages = color_counts / color_counts.sum() * 100`. -/
def color_percentages (ds : Dataset) : List (String × ℚ) :=
  (color_counts ds).map
    (fun e => (e.1, (e.2 : ℚ) / (((color_counts ds).map Prod.snd).sum : ℚ) * 100))

/-! ### Cross-tabulation (line 76) -/

/-- The rows kept by `data.groupby(['object', 'selected_color_space'])`:
groupby drops any row whose `object` or `selected_color_space` key is null. -/
def jointRows (ds : Dataset) : List Row :=
  ds.rows.filter (fun r => r.object.isSome && r.selected_color_space.isSome)

structure ContTable where
  rowLabels : List String
  colLabels : List String
  cell : String → String → ℕ

/-- Line 76: `object_color = data.groupby(['object',
'selected_color_space']).size().unstack(fill_value=0)`.  The row index is
the sorted distinct objects of the kept rows, the columns are the sorted
distinct color spaces of the kept rows, and `unstack(fill_value=0)` makes
every (object, space) cell present, zero when the pair never occurs. -/
def object_color (ds : Dataset) : ContTable :=
  { rowLabels := List.insertionSort (· ≤ ·)
      (firstSeen ((jointRows ds).filterMap (fun r => r.object)))
    colLabels := List.insertionSort (· ≤ ·)
      (firstSeen ((jointRows ds).filterMap (fun r => r.selected_color_space)))
    cell := fun o c => ds.rows.countP
      (fun r => (r.object == some o) && (r.selected_color_space == some c)) }

/-! ### scipy chi-squared test, at the one-row shape the app uses

Both call sites pass a 1×k table (`[color_counts.values]` at line 119 and
`object_color.loc[[obj]].values` at line 140).  For such a table scipy's
`chi2_contingency` computes `expected = rowsum * colsum / total`, which
with one row is the observed row itself; raises `ValueError` when any
expected cell is zero; computes `dof = size - sum(shape) + ndim - 1`; and
takes its degenerate branch `if dof == 0: chi2 = 0.0; p = 1.0`. -/

/-- scipy degrees of freedom: `expected.size - sum(expected.shape) +
expected.ndim - 1` for an `r × k` two-dimensional table. -/
def chi2_dof (r k : ℕ) : ℤ :=
  (r * k : ℤ) - ((r : ℤ) + (k : ℤ)) + 2 - 1

/-- `scipy.stats.chi2_contingency` specialised to a one-row observed table,
returning (statistic, p-value, dof). -/
def chi2_contingency_1xk (obs : List ℕ) : Except String (ℚ × ℚ × ℤ) :=
  if obs.any (fun x => x == 0) then
    .error "The internally computed table of expected frequencies has a zero element"
  else
    .ok (0, 1, chi2_dof 1 obs.length)

/-! ### Float semantics for cramers_v (lines 94-107)

`cramers_v` runs under `np.errstate(divide='ignore', invalid='ignore')`, so
divisions by zero yield IEEE infinities / NaN instead of raising.  `FQ`
models the float values that can arise: NaN, the two infinities, and exact
finite values as rationals. -/

inductive FQ where
  | nan : FQ
  | inf : FQ
  | ninf : FQ
  | fin : ℚ → FQ
deriving DecidableEq, Repr

/-- IEEE division of two finite values. -/
def qdiv (a b : ℚ) : FQ :=
  if b = 0 then
    if a = 0 then .nan else if 0 < a then .inf else .ninf
  else .fin (a / b)

/-- IEEE subtraction. -/
def fqSub : FQ → FQ → FQ
  | .nan, _ => .nan
  | _, .nan => .nan
  | .inf, .inf => .nan
  | .inf, _ => .inf
  | .ninf, .ninf => .nan
  | .ninf, _ => .ninf
  | .fin _, .inf => .ninf
  | .fin _, .ninf => .inf
  | .fin a, .fin b => .fin (a - b)

/-- IEEE less-than: any comparison with NaN is false. -/
def fqLt : FQ → FQ → Bool
  | .nan, _ => false
  | _, .nan => false
  | .ninf, .ninf => false
  | .ninf, _ => true
  | _, .ninf => false
  | .inf, _ => false
  | .fin _, .inf => true
  | .fin a, .fin b => decide (a < b)

/-- Python builtin `max(a, b)`: `b` if `b > a` else `a`. -/
def pymax (a b : FQ) : FQ := if fqLt a b then b else a

/-- Python builtin `min(a, b)`: `b` if `b < a` else `a`. -/
def pymin (a b : FQ) : FQ := if fqLt b a then b else a

/-- IEEE division on `FQ` values. -/
def fqDiv : FQ → FQ → FQ
  | .nan, _ => .nan
  | _, .nan => .nan
  | .inf, .inf => .nan
  | .inf, .ninf => .nan
  | .ninf, .inf => .nan
  | .ninf, .ninf => .nan
  | .inf, .fin b => if b < 0 then .ninf else .inf
  | .ninf, .fin b => if b < 0 then .inf else .ninf
  | .fin _, .inf => .fin 0
  | .fin _, .ninf => .fin 0
  | .fin a, .fin b => qdiv a b

/-- The square of `np.sqrt x` (NaN for a negative or NaN argument);
representing `sqrt` by its square keeps the value rational. -/
def fqSqrtSq : FQ → FQ
  | .nan => .nan
  | .ninf => .nan
  | .inf => .inf
  | .fin q => if q < 0 then .nan else .fin q

/-- Lines 94-107, the function `cramers_v`.  Every call site passes a
one-row matrix (`np.array([color_counts.values])` at line 120 and
`object_color.loc[[obj]].values` at line 145), embedded here as the list of
that row's cells, so `r = 1` and `k` is the row length; `chi2` is the
statistic of `chi2_contingency` on the same matrix (its `ValueError`
propagates).  The returned float is represented by its square (the code
returns `sqrt(radicand)`, or `0.0` when that is NaN). -/
def cramers_v (row : List ℕ) : Except String FQ := do
  let res ← chi2_contingency_1xk row
  let chi2 : ℚ := res.1
  let n : ℚ := (row.sum : ℚ)
  let r : ℕ := 1
  let k : ℕ := row.length
  let phi2 := qdiv chi2 n
  let phi2corr := pymax (.fin 0)
    (fqSub phi2 (qdiv (((k : ℚ) - 1) * ((r : ℚ) - 1)) (n - 1)))
  let rcorr := fqSub (.fin (r : ℚ)) (qdiv (((r : ℚ) - 1) ^ 2) (n - 1))
  let kcorr := fqSub (.fin (k : ℚ)) (qdiv (((k : ℚ) - 1) ^ 2) (n - 1))
  let v := fqSqrtSq (fqDiv phi2corr
    (pymin (fqSub kcorr (.fin 1)) (fqSub rcorr (.fin 1))))
  pure (if v = FQ.nan then .fin 0 else v)

/-! ### The two test call sites (lines 118-129 and 139-160) -/

/-- `color_counts.values`, the count vector of the frequency table. -/
def overallCounts (ds : Dataset) : List ℕ := (color_counts ds).map Prod.snd

/-- Lines 118-127: the overall test runs only when `len(color_counts) > 1
and color_counts.sum() > 0`; it reports the chi-squared statistic, p-value,
dof and Cramér's V.  `none` is the `else` branch message "Not enough
categories or data for chi-squared test." -/
def overallTest (ds : Dataset) : Option (Except String (ℚ × ℚ × ℤ × FQ)) :=
  if 1 < (color_counts ds).length ∧ 0 < (overallCounts ds).sum then
    some (do
      let res ← chi2_contingency_1xk (overallCounts ds)
      let v ← cramers_v (overallCounts ds)
      pure (res.1, res.2.1, res.2.2, v))
  else none

deriving instance DecidableEq for Except

structure ObjResult where
  obj : String
  res : Option (Except String (ℚ × ℚ × ℤ × FQ))
deriving DecidableEq, Repr

/-- `obs = object_color.loc[[obj]].values`, one object's row slice. -/
def objRow (t : ContTable) (o : String) : List ℕ :=
  t.colLabels.map (fun c => t.cell o c)

/-- Lines 139-160, the body of `for obj in object_color.index`: the row
slice `obs = object_color.loc[[obj]].values` is tested only when
`obs.shape[1] > 1 and total > 0 and (obs > 0).all()`; a raised exception is
caught per object (`Except.error`, shown as "Chi-squared test not valid"),
and a failed guard is the "Not enough data or categories ... or zero
counts present" message (`none`). -/
def perObjectOne (t : ContTable) (o : String) : ObjResult :=
  if 1 < (objRow t o).length ∧ 0 < (objRow t o).sum ∧ ∀ x ∈ objRow t o, 0 < x then
    { obj := o
      res := some (do
        let res ← chi2_contingency_1xk (objRow t o)
        let v ← cramers_v (objRow t o)
        pure (res.1, res.2.1, res.2.2, v)) }
  else { obj := o, res := none }

/-- Line 139: the per-object loop, one result per element of
`object_color.index`, in index order. -/
def perObjectTests (ds : Dataset) : List ObjResult :=
  (object_color ds).rowLabels.map (perObjectOne (object_color ds))

/-! ### Consistency analysis (lines 170-188) -/

structure ConsRecord where
  user : String
  obj : String
  sels : List (Option String)
  consistent : Bool
deriving DecidableEq, Repr

/-- Lines 171-172: `data.groupby(['user_id', 'object'])['selected_color_space']
.agg(list)` followed by `consistent = len(set(x)) == 1`.  Groupby drops
rows with a null key; the aggregated list keeps null selections. -/
def user_objects (ds : Dataset) : List ConsRecord :=
  let keys := firstSeen (ds.rows.filterMap
    (fun r => match r.user_id, r.object with
      | some u, some o => some (u, o)
      | _, _ => none))
  keys.map (fun k =>
    let sels := (ds.rows.filter
      (fun r => (r.user_id == some k.1) && (r.object == some k.2))).map
      (fun r => r.selected_color_space)
    { user := k.1, obj := k.2, sels := sels
      consistent := (firstSeen sels).length == 1 })

/-- Line 176: `user_objects['consistent'].mean() * 100`; the mean of an
empty column is NaN (`none`). -/
def consistency_rate (recs : List ConsRecord) : Option ℚ :=
  if recs.length = 0 then none
  else some ((recs.countP (fun rec => rec.consistent) : ℚ) / (recs.length : ℚ) * 100)

/-- Line 170: `if 'user_id' in data.columns and 'repeat' in data.columns`.
`none` is the else branch ("... requires 'user_id' and 'repeat' columns"). -/
def consistencyAnalysis (ds : Dataset) : Option (List ConsRecord × Option ℚ) :=
  if "user_id" ∈ ds.columns ∧ "repeat" ∈ ds.columns then
    some (user_objects ds, consistency_rate (user_objects ds))
  else none

/-! ### The full pipeline (lines 27-188) -/

structure Report where
  freq : List (String × ℕ)
  percentages : List (String × ℚ)
  table : ContTable
  overall : Option (Except String (ℚ × ℚ × ℤ × FQ))
  perObject : List ObjResult
  consistency : Option (List ConsRecord × Option ℚ)

/-- Lines 27-33 then 39-188: validation, halting with the list of missing
mandatory columns (`st.error` + `st.stop`), else the full analysis. -/
def runAnalysis (ds : Dataset) : Except (List String) Report :=
  if missing_columns ds = [] then
    .ok { freq := color_counts ds
          percentages := color_percentages ds
          table := object_color ds
          overall := overallTest ds
          perObject := perObjectTests ds
          consistency := consistencyAnalysis ds }
  else .error (missing_columns ds)

/-! ### Facts about the embedded test functions -/

theorem chi2_dof_eq (r k : ℕ) : chi2_dof r k = ((r : ℤ) - 1) * ((k : ℤ) - 1) := by
  unfold chi2_dof
  ring

theorem chi2_dof_one (k : ℕ) : chi2_dof 1 k = 0 := by
  rw [chi2_dof_eq]
  simp

theorem chi2_contingency_1xk_ok (obs : List ℕ) (hpos : ∀ x ∈ obs, 0 < x) :
    chi2_contingency_1xk obs = .ok (0, 1, chi2_dof 1 obs.length) := by
  unfold chi2_contingency_1xk
  rw [if_neg]
  intro h
  rcases List.any_eq_true.mp h with ⟨x, hx, hx0⟩
  have := hpos x hx
  simp only [beq_iff_eq] at hx0
  omega

theorem length_le_sum (l : List ℕ) (h : ∀ x ∈ l, 0 < x) : l.length ≤ l.sum := by
  induction l with
  | nil => simp
  | cons x xs ih =>
    simp only [List.length_cons, List.sum_cons]
    have hx := h x (List.mem_cons_self x xs)
    have := ih (fun y hy => h y (List.mem_cons_of_mem _ hy))
    omega

/-- Dividing a zero numerator by the minimum of a finite value and zero and
then taking the square root is NaN (`0/0`) or zero (`0` over a negative
value, square root of `0`); the NaN guard of `cramers_v` therefore yields
exactly `0.0` either way. -/
theorem sqrtSq_div_min_zero (u : ℚ) :
    (if fqSqrtSq (fqDiv (FQ.fin 0) (pymin (FQ.fin u) (FQ.fin 0))) = FQ.nan
      then FQ.fin 0
      else fqSqrtSq (fqDiv (FQ.fin 0) (pymin (FQ.fin u) (FQ.fin 0)))) = FQ.fin 0 := by
  rcases lt_trichotomy u 0 with h | h | h
  · have hlt : fqLt (FQ.fin 0) (FQ.fin u) = false := by
      simp [fqLt, not_lt.mpr (le_of_lt h)]
    have hz : u ≠ 0 := ne_of_lt h
    simp [pymin, hlt, fqDiv, qdiv, hz, fqSqrtSq]
  · subst h
    simp [pymin, fqLt, fqDiv, qdiv, fqSqrtSq]
  · have hlt : fqLt (FQ.fin 0) (FQ.fin u) = true := by
      simp [fqLt, h]
    simp [pymin, hlt, fqDiv, qdiv, fqSqrtSq]

/-- The value of the bias-corrected formula of `cramers_v` at `chi2 = 0`
and `r = 1`: the corrected phi-squared is `0`, the corrected row count is
`1`, so the radicand is `0` divided by `min(kcorr - 1, 0)` and the
function returns `0.0`. -/
theorem cramers_core (n : ℚ) (k : ℕ) (hn0 : n ≠ 0) (hn1 : n - 1 ≠ 0) :
    (let phi2 := qdiv 0 n
     let phi2corr := pymax (.fin 0)
       (fqSub phi2 (qdiv (((k : ℚ) - 1) * (((1 : ℕ) : ℚ) - 1)) (n - 1)))
     let rcorr := fqSub (.fin ((1 : ℕ) : ℚ)) (qdiv ((((1 : ℕ) : ℚ) - 1) ^ 2) (n - 1))
     let kcorr := fqSub (.fin (k : ℚ)) (qdiv (((k : ℚ) - 1) ^ 2) (n - 1))
     let v := fqSqrtSq (fqDiv phi2corr
       (pymin (fqSub kcorr (.fin 1)) (fqSub rcorr (.fin 1))))
     if v = FQ.nan then FQ.fin 0 else v) = FQ.fin 0 := by
  have e0 : qdiv (0 : ℚ) n = .fin 0 := by
    rw [qdiv, if_neg hn0, zero_div]
  have e1 : qdiv (((k : ℚ) - 1) * (((1 : ℕ) : ℚ) - 1)) (n - 1) = .fin 0 := by
    rw [qdiv, if_neg hn1]
    norm_num
  have e2 : qdiv ((((1 : ℕ) : ℚ) - 1) ^ 2) (n - 1) = .fin 0 := by
    rw [qdiv, if_neg hn1]
    norm_num
  have e3 : qdiv (((k : ℚ) - 1) ^ 2) (n - 1) = .fin (((k : ℚ) - 1) ^ 2 / (n - 1)) := by
    rw [qdiv, if_neg hn1]
  simp only [e0, e1, e2, e3, fqSub, sub_zero, sub_self, pymax, fqLt]
  simp only [ite_self, Nat.cast_one, sub_self]
  exact sqrtSq_div_min_zero _

/-- On every matrix the application hands to it (one row, at least two
columns, all cells positive), `cramers_v` computes a NaN radicand
(`0.0 / 0.0`, or `0.0` divided by a nonpositive value), so its NaN guard
makes it return exactly `0.0`. -/
theorem cramers_v_eq_zero (row : List ℕ) (hlen : 2 ≤ row.length)
    (hpos : ∀ x ∈ row, 0 < x) : cramers_v row = .ok (.fin 0) := by
  have hsum : 2 ≤ row.sum := le_trans hlen (length_le_sum row hpos)
  have hcast : (2 : ℚ) ≤ (row.sum : ℚ) := by exact_mod_cast hsum
  have hn0 : ((row.sum : ℚ)) ≠ 0 := by linarith
  have hn1 : ((row.sum : ℚ)) - 1 ≠ 0 := by intro h; linarith
  rw [cramers_v, chi2_contingency_1xk_ok row hpos]
  exact congrArg Except.ok (cramers_core (row.sum : ℚ) row.length hn0 hn1)

/-! ### Derived quantities used by the statements -/

/-- Number of selections recorded for one object: rows naming that object
with a non-null color selection. -/
def rowTotal (ds : Dataset) (o : String) : ℕ :=
  ds.rows.countP (fun r => (r.object == some o) && r.selected_color_space.isSome)

/-- Grand total of the frequency table. -/
def freqGrandTotal (ds : Dataset) : ℕ := ((color_counts ds).map Prod.snd).sum

/-- Grand total of the contingency table: the sum of all its cells. -/
def contGrandTotal (ds : Dataset) : ℕ :=
  ((object_color ds).rowLabels.map
    (fun o => ((object_color ds).colLabels.map ((object_color ds).cell o)).sum)).sum

/-! ### Facts about the frequency table -/

theorem color_counts_perm (ds : Dataset) :
    (color_counts ds).Perm ((firstSeen (selections ds)).map
      (fun c => (c, (selections ds).count c))) :=
  List.perm_insertionSort _ _

theorem mem_color_counts (ds : Dataset) (e : String × ℕ) :
    e ∈ color_counts ds ↔ e.1 ∈ selections ds ∧ e.2 = (selections ds).count e.1 := by
  obtain ⟨a, b⟩ := e
  rw [(color_counts_perm ds).mem_iff]
  constructor
  · intro h
    rcases List.mem_map.mp h with ⟨c, hc, hce⟩
    have h1 : c = a := congrArg Prod.fst hce
    have h2 : (selections ds).count c = b := congrArg Prod.snd hce
    subst h1
    subst h2
    exact ⟨(mem_firstSeen c _).mp hc, rfl⟩
  · rintro ⟨h1, h2⟩
    refine List.mem_map.mpr ⟨a, (mem_firstSeen _ _).mpr h1, ?_⟩
    simp only at h2
    rw [h2]

theorem color_counts_pos (ds : Dataset) (e : String × ℕ)
    (h : e ∈ color_counts ds) : 0 < e.2 := by
  rcases (mem_color_counts ds e).mp h with ⟨h1, h2⟩
  rw [h2]
  exact List.count_pos_iff.mpr h1

/-- The length of a `filterMap` counts the rows where the function hits. -/
theorem length_filterMap_eq_countP {α β : Type} (f : α → Option β) :
    ∀ l : List α, (l.filterMap f).length = l.countP (fun r => (f r).isSome) := by
  intro l
  induction l with
  | nil => simp
  | cons x xs ih =>
    rw [List.countP_cons]
    cases hx : f x with
    | none => simp [List.filterMap_cons, hx, ih]
    | some b => simp [List.filterMap_cons, hx, ih]

/-- Value-counts totals: summing the multiplicities of the distinct values
recovers the number of non-null values. -/
theorem sum_count_firstSeen (l : List String) :
    ((firstSeen l).map (fun c => l.count c)).sum = l.length := by
  have hcover : ∀ r ∈ l, (fun _ : String => true) r = true →
      ∃ a ∈ firstSeen l, (some r : Option String) = some a := by
    intro r hr _
    exact ⟨r, (mem_firstSeen r l).mpr hr, rfl⟩
  have h := sum_countP_partition (fun _ : String => true)
    (fun s : String => some s) l (firstSeen l) (nodup_firstSeen l) hcover
  have hpt : ∀ c : String,
      l.countP (fun r => true && ((some r : Option String) == some c)) = l.count c := by
    intro c
    rw [List.count_eq_countP]
    apply List.countP_congr
    intro x _
    simp
  rw [List.map_congr_left (fun c _ => (hpt c).symm), h]
  simp

theorem sum_color_counts (ds : Dataset) :
    freqGrandTotal ds = (selections ds).length := by
  unfold freqGrandTotal
  rw [((color_counts_perm ds).map Prod.snd).sum_eq, List.map_map]
  exact sum_count_firstSeen (selections ds)

theorem selections_length (ds : Dataset) :
    (selections ds).length = ds.rows.countP (fun r => r.selected_color_space.isSome) :=
  length_filterMap_eq_countP _ ds.rows

theorem color_counts_length (ds : Dataset) :
    (color_counts ds).length = (firstSeen (selections ds)).length := by
  rw [(color_counts_perm ds).length_eq, List.length_map]

/-! ### Facts about the contingency table -/

theorem mem_rowLabels (ds : Dataset) (o : String) :
    o ∈ (object_color ds).rowLabels ↔
      ∃ r ∈ ds.rows, r.object = some o ∧ r.selected_color_space.isSome = true := by
  show o ∈ List.insertionSort _ _ ↔ _
  rw [List.mem_insertionSort, mem_firstSeen, List.mem_filterMap]
  constructor
  · rintro ⟨r, hr, hro⟩
    rcases List.mem_filter.mp hr with ⟨hmem, hpred⟩
    rcases Bool.and_eq_true .. ▸ hpred with ⟨_, hsel⟩
    exact ⟨r, hmem, hro, hsel⟩
  · rintro ⟨r, hmem, hro, hsel⟩
    refine ⟨r, List.mem_filter.mpr ⟨hmem, ?_⟩, hro⟩
    rw [Bool.and_eq_true]
    exact ⟨by rw [hro]; rfl, hsel⟩

theorem mem_colLabels (ds : Dataset) (c : String) :
    c ∈ (object_color ds).colLabels ↔
      ∃ r ∈ ds.rows, r.object.isSome = true ∧ r.selected_color_space = some c := by
  show c ∈ List.insertionSort _ _ ↔ _
  rw [List.mem_insertionSort, mem_firstSeen, List.mem_filterMap]
  constructor
  · rintro ⟨r, hr, hrc⟩
    rcases List.mem_filter.mp hr with ⟨hmem, hpred⟩
    rcases Bool.and_eq_true .. ▸ hpred with ⟨hobj, _⟩
    exact ⟨r, hmem, hobj, hrc⟩
  · rintro ⟨r, hmem, hobj, hrc⟩
    refine ⟨r, List.mem_filter.mpr ⟨hmem, ?_⟩, hrc⟩
    rw [Bool.and_eq_true]
    exact ⟨hobj, by rw [hrc]; rfl⟩

theorem nodup_rowLabels (ds : Dataset) : (object_color ds).rowLabels.Nodup :=
  (List.perm_insertionSort _ _).nodup_iff.mpr (nodup_firstSeen _)

theorem nodup_colLabels (ds : Dataset) : (object_color ds).colLabels.Nodup :=
  (List.perm_insertionSort _ _).nodup_iff.mpr (nodup_firstSeen _)

theorem sorted_rowLabels (ds : Dataset) :
    (object_color ds).rowLabels.Sorted (· < ·) :=
  (List.sorted_insertionSort _ _).lt_of_le (nodup_rowLabels ds)

theorem sorted_colLabels (ds : Dataset) :
    (object_color ds).colLabels.Sorted (· < ·) :=
  (List.sorted_insertionSort _ _).lt_of_le (nodup_colLabels ds)

/-- Each row of the contingency table sums to the number of rows naming
that object with a non-null selection. -/
theorem row_sum_eq (ds : Dataset) (o : String) :
    (((object_color ds).colLabels.map ((object_color ds).cell o)).sum)
      = rowTotal ds o := by
  have hcover : ∀ r ∈ ds.rows,
      ((r.object == some o) && r.selected_color_space.isSome) = true →
      ∃ a ∈ (object_color ds).colLabels, r.selected_color_space = some a := by
    intro r hr hpred
    rcases Bool.and_eq_true .. ▸ hpred with ⟨hobj, hsel⟩
    rcases Option.isSome_iff_exists.mp hsel with ⟨c, hc⟩
    refine ⟨c, (mem_colLabels ds c).mpr ⟨r, hr, ?_, hc⟩, hc⟩
    rw [beq_iff_eq] at hobj
    rw [hobj]
    rfl
  have h := sum_countP_partition
    (fun r : Row => (r.object == some o) && r.selected_color_space.isSome)
    (fun r : Row => r.selected_color_space) ds.rows
    (object_color ds).colLabels (nodup_colLabels ds) hcover
  have hpt : ∀ c : String,
      ds.rows.countP (fun r =>
          ((r.object == some o) && r.selected_color_space.isSome)
            && (r.selected_color_space == some c))
        = (object_color ds).cell o c := by
    intro c
    apply List.countP_congr
    intro r _
    show (((r.object == some o) && r.selected_color_space.isSome)
        && (r.selected_color_space == some c)) = true
      ↔ ((r.object == some o) && (r.selected_color_space == some c)) = true
    cases hsel : r.selected_color_space with
    | none => simp [hsel]
    | some d => simp [hsel]
  unfold rowTotal
  rw [← h]
  congr 1
  apply List.map_congr_left
  intro c _
  exact (hpt c).symm

/-- The grand total of the contingency table counts the rows kept by the
groupby: those with both a non-null object and a non-null selection. -/
theorem grand_total_eq (ds : Dataset) :
    contGrandTotal ds = (jointRows ds).length := by
  unfold contGrandTotal
  rw [List.map_congr_left (fun o _ => row_sum_eq ds o)]
  have hcover : ∀ r ∈ ds.rows,
      (r.object.isSome && r.selected_color_space.isSome) = true →
      ∃ a ∈ (object_color ds).rowLabels, r.object = some a := by
    intro r hr hpred
    rcases Bool.and_eq_true .. ▸ hpred with ⟨hobj, hsel⟩
    rcases Option.isSome_iff_exists.mp hobj with ⟨o, ho⟩
    exact ⟨o, (mem_rowLabels ds o).mpr ⟨r, hr, ho, hsel⟩, ho⟩
  have h := sum_countP_partition
    (fun r : Row => r.object.isSome && r.selected_color_space.isSome)
    (fun r : Row => r.object) ds.rows
    (object_color ds).rowLabels (nodup_rowLabels ds) hcover
  have hpt : ∀ o : String,
      ds.rows.countP (fun r =>
          (r.object.isSome && r.selected_color_space.isSome) && (r.object == some o))
        = rowTotal ds o := by
    intro o
    apply List.countP_congr
    intro r _
    show ((r.object.isSome && r.selected_color_space.isSome) && (r.object == some o)) = true
      ↔ ((r.object == some o) && r.selected_color_space.isSome) = true
    cases hobj : r.object with
    | none => simp [hobj]
    | some d => simp [hobj, Bool.and_comm]
  have hmap : ((object_color ds).rowLabels.map (fun o => rowTotal ds o))
      = (object_color ds).rowLabels.map (fun o => ds.rows.countP (fun r =>
          (r.object.isSome && r.selected_color_space.isSome) && (r.object == some o))) := by
    apply List.map_congr_left
    intro o _
    exact (hpt o).symm
  rw [hmap]
  have hjoint : (jointRows ds).length
      = ds.rows.countP (fun r => r.object.isSome && r.selected_color_space.isSome) := by
    unfold jointRows
    rw [← List.countP_eq_length_filter]
  rw [hjoint, ← h]

/-! ### The results the two test sites report -/

theorem overallCounts_pos (ds : Dataset) : ∀ x ∈ overallCounts ds, 0 < x := by
  intro x hx
  rcases List.mem_map.mp hx with ⟨e, he, hxe⟩
  rw [← hxe]
  exact color_counts_pos ds e he

/-- Whenever the overall test runs, it reports statistic `0`, p-value `1`,
`0` degrees of freedom and effect size `0`. -/
theorem overallTest_eq (ds : Dataset)
    (h : 1 < (color_counts ds).length ∧ 0 < (overallCounts ds).sum) :
    overallTest ds = some (.ok (0, 1, 0, .fin 0)) := by
  have hpos := overallCounts_pos ds
  have hlen : 2 ≤ (overallCounts ds).length := by
    rw [overallCounts, List.length_map]
    exact h.1
  unfold overallTest
  rw [if_pos h, chi2_contingency_1xk_ok _ hpos, cramers_v_eq_zero _ hlen hpos]
  show some (Except.ok ((0 : ℚ), (1 : ℚ), chi2_dof 1 (overallCounts ds).length, FQ.fin 0))
    = some (Except.ok (0, 1, 0, FQ.fin 0))
  rw [chi2_dof_one]

theorem overallTest_isSome_iff (ds : Dataset) :
    (overallTest ds).isSome = true ↔
      (1 < (color_counts ds).length ∧ 0 < (overallCounts ds).sum) := by
  unfold overallTest
  split
  · next h => simpa using h
  · next h => simpa using h

theorem perObjectOne_obj (t : ContTable) (o : String) : (perObjectOne t o).obj = o := by
  unfold perObjectOne
  split <;> rfl

theorem perObjectOne_res_isSome_iff (t : ContTable) (o : String) :
    (perObjectOne t o).res.isSome = true ↔
      (1 < (objRow t o).length ∧ 0 < (objRow t o).sum ∧ ∀ x ∈ objRow t o, 0 < x) := by
  unfold perObjectOne
  split
  · next h => simpa using h
  · next h => simpa using h

/-- Whenever a per-object test runs, it reports statistic `0`, p-value `1`,
`0` degrees of freedom and effect size `0`. -/
theorem perObjectOne_eq (t : ContTable) (o : String)
    (h : 1 < (objRow t o).length ∧ 0 < (objRow t o).sum ∧ ∀ x ∈ objRow t o, 0 < x) :
    (perObjectOne t o).res = some (.ok (0, 1, 0, .fin 0)) := by
  have hlen : 2 ≤ (objRow t o).length := h.1
  unfold perObjectOne
  rw [if_pos h]
  show some (_ : Except String (ℚ × ℚ × ℤ × FQ)) = _
  rw [chi2_contingency_1xk_ok _ h.2.2, cramers_v_eq_zero _ hlen h.2.2]
  show some (Except.ok ((0 : ℚ), (1 : ℚ), chi2_dof 1 (objRow t o).length, FQ.fin 0))
    = some (Except.ok (0, 1, 0, FQ.fin 0))
  rw [chi2_dof_one]

theorem perObjectTests_objs (ds : Dataset) :
    (perObjectTests ds).map (fun r => r.obj) = (object_color ds).rowLabels := by
  unfold perObjectTests
  rw [List.map_map]
  have : ((fun r : ObjResult => r.obj) ∘ perObjectOne (object_color ds))
      = fun o => o := by
    funext o
    exact perObjectOne_obj _ o
  rw [this, List.map_id']

/-! ### Facts about the consistency analysis -/

theorem firstSeen_const {α : Type} [DecidableEq α] (l : List α) (v : α)
    (hne : l ≠ []) (h : ∀ x ∈ l, x = v) : firstSeen l = [v] := by
  cases l with
  | nil => exact absurd rfl hne
  | cons x xs =>
    have hx : x = v := h x (List.mem_cons_self x xs)
    show x :: (firstSeen xs).filter (fun y => decide (y ≠ x)) = [v]
    have hfil : (firstSeen xs).filter (fun y => decide (y ≠ x)) = [] := by
      rw [List.filter_eq_nil_iff]
      intro a ha
      have hav : a = v := h a (List.mem_cons_of_mem _ ((mem_firstSeen a xs).mp ha))
      simp [hav, hx]
    rw [hfil, hx]

/-- A list has exactly one distinct value iff it is nonempty and all its
elements are equal (the `len(set(x)) == 1` test of line 172). -/
theorem firstSeen_length_one_iff {α : Type} [DecidableEq α] (l : List α) :
    (firstSeen l).length = 1 ↔ l ≠ [] ∧ ∃ v, ∀ x ∈ l, x = v := by
  constructor
  · intro h
    rcases List.length_eq_one.mp h with ⟨v, hv⟩
    constructor
    · intro hnil
      subst hnil
      simp [firstSeen] at hv
    · refine ⟨v, fun x hx => ?_⟩
      have := (mem_firstSeen x l).mpr hx
      rw [hv] at this
      simpa using this
  · rintro ⟨hne, v, hall⟩
    rw [firstSeen_const l v hne hall]
    rfl

theorem user_objects_keys (ds : Dataset) :
    (user_objects ds).map (fun rec => (rec.user, rec.obj))
      = firstSeen (ds.rows.filterMap
          (fun r => match r.user_id, r.object with
            | some u, some o => some (u, o)
            | _, _ => none)) := by
  unfold user_objects
  rw [List.map_map]
  show List.map (fun k => k) _ = _
  rw [List.map_id']

theorem user_objects_nodup_keys (ds : Dataset) :
    ((user_objects ds).map (fun rec => (rec.user, rec.obj))).Nodup := by
  rw [user_objects_keys]
  exact nodup_firstSeen _

theorem user_objects_cover (ds : Dataset) (r : Row) (hr : r ∈ ds.rows)
    (u o : String) (hu : r.user_id = some u) (ho : r.object = some o) :
    (u, o) ∈ (user_objects ds).map (fun rec => (rec.user, rec.obj)) := by
  rw [user_objects_keys, mem_firstSeen, List.mem_filterMap]
  exact ⟨r, hr, by rw [hu, ho]⟩

theorem user_objects_consistent (ds : Dataset) (rec : ConsRecord)
    (h : rec ∈ user_objects ds) :
    rec.consistent = true ↔ rec.sels ≠ [] ∧ ∃ v, ∀ x ∈ rec.sels, x = v := by
  unfold user_objects at h
  rcases List.mem_map.mp h with ⟨k, _, hk⟩
  subst hk
  show ((firstSeen _).length == 1) = true ↔ _
  rw [beq_iff_eq]
  exact firstSeen_length_one_iff _

theorem consistency_rate_props (recs : List ConsRecord) (hne : recs ≠ []) :
    ∃ q, consistency_rate recs = some q ∧
      q = ((recs.countP (fun rec => rec.consistent) : ℚ) / (recs.length : ℚ)) * 100 ∧
      0 ≤ q ∧ q ≤ 100 ∧
      (q = 100 ↔ ∀ rec ∈ recs, rec.consistent = true) := by
  have hlen : recs.length ≠ 0 := fun h => hne (List.length_eq_zero.mp h)
  have hlenq : ((recs.length : ℚ)) ≠ 0 := Nat.cast_ne_zero.mpr hlen
  have hlenpos : (0 : ℚ) < (recs.length : ℚ) :=
    lt_of_le_of_ne (Nat.cast_nonneg _) (Ne.symm hlenq)
  have hcle : recs.countP (fun rec => rec.consistent) ≤ recs.length :=
    List.countP_le_length _
  have hcleq : ((recs.countP (fun rec => rec.consistent) : ℚ)) ≤ (recs.length : ℚ) := by
    exact_mod_cast hcle
  refine ⟨_, ?_, rfl, ?_, ?_, ?_⟩
  · unfold consistency_rate
    rw [if_neg hlen]
  · positivity
  · have hdiv : ((recs.countP (fun rec => rec.consistent) : ℚ) / (recs.length : ℚ)) ≤ 1 :=
      (div_le_one hlenpos).mpr hcleq
    nlinarith
  · constructor
    · intro hq
      have hc : ((recs.countP (fun rec => rec.consistent) : ℚ)) = (recs.length : ℚ) := by
        field_simp at hq
        linarith
      have : recs.countP (fun rec => rec.consistent) = recs.length := by
        exact_mod_cast hc
      exact List.countP_eq_length.mp this
    · intro hall
      have : recs.countP (fun rec => rec.consistent) = recs.length :=
        List.countP_eq_length.mpr hall
      rw [this]
      field_simp

theorem consistency_rate_none (recs : List ConsRecord) (hne : recs = []) :
    consistency_rate recs = none := by
  subst hne
  rfl

/-! ### Extraction helpers: the value any attempted test reports -/

theorem overallTest_some_eq (ds : Dataset) (out : Except String (ℚ × ℚ × ℤ × FQ))
    (h : overallTest ds = some out) : out = .ok (0, 1, 0, FQ.fin 0) := by
  have hg : 1 < (color_counts ds).length ∧ 0 < (overallCounts ds).sum := by
    by_contra hng
    unfold overallTest at h
    rw [if_neg hng] at h
    cases h
  rw [overallTest_eq ds hg] at h
  exact (Option.some.inj h).symm

theorem perObject_some_eq (ds : Dataset) (r : ObjResult) (hr : r ∈ perObjectTests ds)
    (out : Except String (ℚ × ℚ × ℤ × FQ)) (h : r.res = some out) :
    out = .ok (0, 1, 0, FQ.fin 0) := by
  rcases List.mem_map.mp hr with ⟨o, _, rfl⟩
  have hg : 1 < (objRow (object_color ds) o).length ∧
      0 < (objRow (object_color ds) o).sum ∧
      ∀ x ∈ objRow (object_color ds) o, 0 < x := by
    by_contra hng
    unfold perObjectOne at h
    rw [if_neg hng] at h
    exact Option.noConfusion h
  rw [perObjectOne_eq _ _ hg] at h
  exact (Option.some.inj h).symm

/-! ### Example datasets -/

/-- A well-formed dataset: one participant chose RGB twice and CMYK once
for the object "apple". -/
def dsW : Dataset :=
  { columns := ["selected_color_space", "object", "user_id", "repeat"]
    rows :=
      [ { selected_color_space := some "RGB", object := some "apple", user_id := some "P1" },
        { selected_color_space := some "RGB", object := some "apple", user_id := some "P1" },
        { selected_color_space := some "CMYK", object := some "apple", user_id := some "P1" } ] }

/-- A dataset with the participant identifier column but no `repeat` column. -/
def dsC5 : Dataset :=
  { columns := ["selected_color_space", "object", "user_id"], rows := [] }

/-- A dataset whose single row has a selection but a null object. -/
def dsC8 : Dataset :=
  { columns := ["selected_color_space", "object"]
    rows := [{ selected_color_space := some "RGB", object := none, user_id := none }] }

/-- A dataset lacking the mandatory `object` column. -/
def dsC9 : Dataset :=
  { columns := ["selected_color_space"], rows := [] }

/-- A dataset whose count-descending frequency order ("zzz" before "aaa")
differs from the sorted contingency column order ("aaa" before "zzz"). -/
def dsOrd : Dataset :=
  { columns := ["selected_color_space", "object"]
    rows :=
      [ { selected_color_space := some "zzz", object := some "x", user_id := none },
        { selected_color_space := some "zzz", object := some "x", user_id := none },
        { selected_color_space := some "aaa", object := some "x", user_id := none } ] }

/-! ### The claims -/

/-- C1: the spec asks the overall test and each per-object test to be a
goodness-of-fit test of the observed 1×k count vector against its
expected-frequency null, with a statistic that is not identically zero.
The code instead calls `chi2_contingency` on a one-row table, whose
expected frequencies equal the observed row, so every test it ever runs
reports statistic 0, p-value 1 and dof 0, for every dataset: the statistic
is identically zero, contradicting the claim (and the app's own displayed
explanation that the test detects significant preferences). -/
theorem C1_tests_identically_zero :
    (∀ ds : Dataset, ∀ out, overallTest ds = some out →
        out = .ok (0, 1, 0, FQ.fin 0)) ∧
    (∀ ds : Dataset, ∀ r ∈ perObjectTests ds, ∀ out, r.res = some out →
        out = .ok (0, 1, 0, FQ.fin 0)) :=
  ⟨fun ds out h => overallTest_some_eq ds out h,
   fun ds r hr out h => perObject_some_eq ds r hr out h⟩

/-- Witness for C1 at the concrete dataset `dsW`. -/
theorem C1_witness :
    ∃ out, overallTest dsW = some out ∧ out = Except.ok (0, 1, 0, FQ.fin 0) :=
  ⟨Except.ok (0, 1, 0, FQ.fin 0), overallTest_eq dsW ⟨by decide, by decide⟩,
    C1_tests_identically_zero.1 dsW _ (overallTest_eq dsW ⟨by decide, by decide⟩)⟩

/-- C2 as stated is false: on `dsW` the overall test receives a single-row
vector of k = 2 categories and reports 0 degrees of freedom, not
k − 1 = 1. -/
theorem C2_counterexample :
    overallTest dsW = some (Except.ok (0, 1, 0, FQ.fin 0)) ∧
    (color_counts dsW).length = 2 ∧
    ((0 : ℤ) ≠ ((color_counts dsW).length : ℤ) - 1) :=
  ⟨overallTest_eq dsW ⟨by decide, by decide⟩, by decide, by decide⟩

/-- C2 amended: the reported degrees of freedom always equal
(r − 1) × (k − 1); every table the application passes is single-row
(r = 1), so both the overall test and each per-object test report 0
degrees of freedom, not k − 1. -/
theorem C2_dof_amended :
    (∀ r k : ℕ, chi2_dof r k = ((r : ℤ) - 1) * ((k : ℤ) - 1)) ∧
    (∀ ds : Dataset, ∀ c p : ℚ, ∀ d : ℤ, ∀ v : FQ,
        overallTest ds = some (.ok (c, p, d, v)) → d = 0) ∧
    (∀ ds : Dataset, ∀ r ∈ perObjectTests ds, ∀ c p : ℚ, ∀ d : ℤ, ∀ v : FQ,
        r.res = some (.ok (c, p, d, v)) → d = 0) := by
  refine ⟨chi2_dof_eq, ?_, ?_⟩
  · intro ds c p d v h
    have := overallTest_some_eq ds _ h
    rcases Except.ok.inj this with h2
    exact congrArg (fun t => t.2.2.1) h2
  · intro ds r hr c p d v h
    have := perObject_some_eq ds r hr _ h
    rcases Except.ok.inj this with h2
    exact congrArg (fun t => t.2.2.1) h2

/-- Witness for C2 at the concrete dataset `dsW`. -/
theorem C2_witness :
    chi2_dof 3 4 = ((3 : ℤ) - 1) * ((4 : ℤ) - 1) ∧
    overallTest dsW = some (Except.ok (0, 1, 0, FQ.fin 0)) ∧ (0 : ℤ) = 0 :=
  ⟨C2_dof_amended.1 3 4, overallTest_eq dsW ⟨by decide, by decide⟩,
    C2_dof_amended.2.1 dsW 0 1 0 (FQ.fin 0) (overallTest_eq dsW ⟨by decide, by decide⟩)⟩

/-- C3: on every observed count matrix the application computes the effect
size for (a one-row vector with at least two strictly positive cells),
`cramers_v` applies the bias-corrected formula and returns a finite,
non-NaN, non-negative value: the radicand degenerates to NaN (or to zero),
the NaN guard maps it to 0, and 0 lies in [0, 1]. -/
theorem C3_cramers_v (row : List ℕ) (hk : 2 ≤ row.length)
    (hpos : ∀ x ∈ row, 0 < x) :
    ∃ q : ℚ, cramers_v row = .ok (FQ.fin q) ∧ q = 0 ∧ 0 ≤ q ∧ q ≤ 1 :=
  ⟨0, cramers_v_eq_zero row hk hpos, rfl, le_refl 0, by norm_num⟩

/-- Witness for C3 at the row [5, 5] of the spec's Example 2. -/
theorem C3_witness :
    ∃ q : ℚ, cramers_v [5, 5] = .ok (FQ.fin q) ∧ q = 0 ∧ 0 ≤ q ∧ q ≤ 1 :=
  C3_cramers_v [5, 5] (by decide) (by decide)

/-- C4: the overall test is attempted iff there are at least two distinct
color-format categories and a non-zero total of non-null selections; a
per-object test is attempted iff the table has at least two category
columns, the object's row total is non-zero, and every cell of that row is
strictly positive; a failed guard yields the insufficient-data report
(`none`) for that test only, and every object of the table gets exactly
one result, in table order, regardless of the other objects' outcomes. -/
theorem C4_test_preconditions (ds : Dataset) :
    ((overallTest ds).isSome = true ↔
      (2 ≤ (firstSeen (selections ds)).length ∧ 0 < (selections ds).length)) ∧
    (∀ r ∈ perObjectTests ds, (r.res.isSome = true ↔
      (2 ≤ (object_color ds).colLabels.length ∧ 0 < rowTotal ds r.obj ∧
        ∀ c ∈ (object_color ds).colLabels, 0 < (object_color ds).cell r.obj c))) ∧
    ((perObjectTests ds).map (fun r => r.obj) = (object_color ds).rowLabels) := by
  refine ⟨?_, ?_, perObjectTests_objs ds⟩
  · rw [overallTest_isSome_iff, color_counts_length]
    have hsum : (overallCounts ds).sum = (selections ds).length := sum_color_counts ds
    rw [hsum]
    omega
  · intro r hr
    rcases List.mem_map.mp hr with ⟨o, _, rfl⟩
    rw [perObjectOne_res_isSome_iff, perObjectOne_obj]
    have hlen : (objRow (object_color ds) o).length = (object_color ds).colLabels.length :=
      List.length_map _ _
    have hsum : (objRow (object_color ds) o).sum = rowTotal ds o := row_sum_eq ds o
    rw [hlen, hsum]
    constructor
    · rintro ⟨h1, h2, h3⟩
      refine ⟨by omega, h2, fun c hc => ?_⟩
      exact h3 _ (List.mem_map_of_mem _ hc)
    · rintro ⟨h1, h2, h3⟩
      refine ⟨by omega, h2, fun x hx => ?_⟩
      rcases List.mem_map.mp hx with ⟨c, hc, rfl⟩
      exact h3 c hc

/-- Witness for C4 at the concrete dataset `dsW`. -/
theorem C4_witness :
    (overallTest dsW).isSome = true ∧
    (perObjectTests dsW).map (fun r => r.obj) = (object_color dsW).rowLabels :=
  ⟨((C4_test_preconditions dsW).1).mpr ⟨by decide, by decide⟩,
    (C4_test_preconditions dsW).2.2⟩

/-- C5 as stated is false: `dsC5` contains the participant identifier
column `user_id`, yet consistency analysis is skipped, because the guard
at line 170 also requires the `repeat` column. -/
theorem C5_counterexample :
    "user_id" ∈ dsC5.columns ∧ consistencyAnalysis dsC5 = none := by
  constructor
  · decide
  · unfold consistencyAnalysis
    rw [if_neg]
    rintro ⟨_, hrep⟩
    revert hrep
    decide

/-- C5 amended: consistency analysis is performed exactly when both the
`user_id` and the `repeat` columns are present; the absence of either one
skips it without error, so `repeat` does co-determine whether it runs. -/
theorem C5_amended (ds : Dataset) :
    (consistencyAnalysis ds).isSome = true ↔
      ("user_id" ∈ ds.columns ∧ "repeat" ∈ ds.columns) := by
  unfold consistencyAnalysis
  split
  · next h => simpa using h
  · next h => simpa using h

/-- Witness for C5 (amended) at the concrete dataset `dsW`, which has both
columns. -/
theorem C5_witness : (consistencyAnalysis dsW).isSome = true :=
  (C5_amended dsW).mpr ⟨by decide, by decide⟩

/-! ### Percentage lemmas for C6 -/

theorem color_percentages_entry (ds : Dataset) (e : String × ℚ)
    (h : e ∈ color_percentages ds) :
    e.2 = ((selections ds).count e.1 : ℚ) / ((selections ds).length : ℚ) * 100 := by
  unfold color_percentages at h
  rcases List.mem_map.mp h with ⟨e0, he0, hee⟩
  rcases (mem_color_counts ds e0).mp he0 with ⟨_, hc⟩
  have h1 : e.1 = e0.1 := (congrArg Prod.fst hee).symm
  have h2 : e.2 = (e0.2 : ℚ) / (((color_counts ds).map Prod.snd).sum : ℚ) * 100 :=
    (congrArg Prod.snd hee).symm
  have hT : ((color_counts ds).map Prod.snd).sum = (selections ds).length :=
    sum_color_counts ds
  rw [h2, hT, h1, hc]

theorem color_percentages_sum (ds : Dataset) (h : 0 < (selections ds).length) :
    ((color_percentages ds).map Prod.snd).sum = 100 := by
  have hT : ((color_counts ds).map Prod.snd).sum = (selections ds).length :=
    sum_color_counts ds
  have hT0 : (((selections ds).length : ℚ)) ≠ 0 :=
    Nat.cast_ne_zero.mpr (by omega)
  unfold color_percentages
  rw [List.map_map]
  have hpt : ∀ e ∈ color_counts ds,
      (Prod.snd ∘ fun e : String × ℕ =>
        (e.1, (e.2 : ℚ) / (((color_counts ds).map Prod.snd).sum : ℚ) * 100)) e
      = (fun e : String × ℕ => (e.2 : ℚ) * (100 / ((selections ds).length : ℚ))) e := by
    intro e _
    show (e.2 : ℚ) / (((color_counts ds).map Prod.snd).sum : ℚ) * 100
      = (e.2 : ℚ) * (100 / ((selections ds).length : ℚ))
    rw [hT]
    ring
  rw [List.map_congr_left hpt, List.sum_map_mul_right]
  have hcast : ((color_counts ds).map (fun e : String × ℕ => (e.2 : ℚ))).sum
      = (((selections ds).length : ℚ)) := by
    have : (color_counts ds).map (fun e : String × ℕ => (e.2 : ℚ))
        = ((color_counts ds).map Prod.snd).map (fun n : ℕ => (n : ℚ)) := by
      rw [List.map_map]
      rfl
    rw [this, ← Nat.cast_list_sum, hT]
  rw [hcast]
  field_simp

theorem color_percentages_nil (ds : Dataset) (h : (selections ds).length = 0) :
    color_percentages ds = [] := by
  have hsel : selections ds = [] := List.length_eq_zero.mp h
  unfold color_percentages color_counts
  rw [hsel]
  rfl

/-- C6: every percentage entry is that category's count divided by the
total number of non-null selections, times 100; the percentages sum to
exactly 100 whenever the total is positive; and with a zero total the
percentage table is empty (the no-data outcome), no division by zero ever
being performed. -/
theorem C6_percentages (ds : Dataset) :
    (∀ e ∈ color_percentages ds,
        e.2 = ((selections ds).count e.1 : ℚ) / ((selections ds).length : ℚ) * 100) ∧
    (0 < (selections ds).length → ((color_percentages ds).map Prod.snd).sum = 100) ∧
    ((selections ds).length = 0 → color_percentages ds = []) :=
  ⟨fun e he => color_percentages_entry ds e he,
   fun h => color_percentages_sum ds h,
   fun h => color_percentages_nil ds h⟩

/-- Witness for C6 at the concrete dataset `dsW`. -/
theorem C6_witness :
    0 < (selections dsW).length ∧ ((color_percentages dsW).map Prod.snd).sum = 100 :=
  ⟨by decide, (C6_percentages dsW).2.1 (by decide)⟩

/-- C7: the consistency analysis produces one record per distinct
(participant, object) pair of the rows having both keys non-null; a
record's `consistent` flag is true iff its selection list is nonempty with
all entries equal (exactly one distinct selection); the overall rate is
(consistent count) / (total records) × 100, lies in [0, 100], and is 100
iff every record is consistent; with zero records the rate is the no-data
value (pandas NaN, embedded as `none`) rather than a crash. -/
theorem C7_consistency (ds : Dataset) :
    (((user_objects ds).map (fun rec => (rec.user, rec.obj))).Nodup) ∧
    (∀ r ∈ ds.rows, ∀ u o, r.user_id = some u → r.object = some o →
        (u, o) ∈ (user_objects ds).map (fun rec => (rec.user, rec.obj))) ∧
    (∀ rec ∈ user_objects ds,
        (rec.consistent = true ↔ rec.sels ≠ [] ∧ ∃ v, ∀ x ∈ rec.sels, x = v)) ∧
    (user_objects ds = [] → consistency_rate (user_objects ds) = none) ∧
    (user_objects ds ≠ [] → ∃ q, consistency_rate (user_objects ds) = some q ∧
        q = ((user_objects ds).countP (fun rec => rec.consistent) : ℚ)
            / ((user_objects ds).length : ℚ) * 100 ∧
        0 ≤ q ∧ q ≤ 100 ∧
        (q = 100 ↔ ∀ rec ∈ user_objects ds, rec.consistent = true)) :=
  ⟨user_objects_nodup_keys ds,
   fun r hr u o hu ho => user_objects_cover ds r hr u o hu ho,
   fun rec hrec => user_objects_consistent ds rec hrec,
   fun h => consistency_rate_none _ h,
   fun h => consistency_rate_props _ h⟩

/-- Witness for C7 at the concrete dataset `dsW`. -/
theorem C7_witness :
    user_objects dsW ≠ [] ∧
    ∃ q, consistency_rate (user_objects dsW) = some q ∧
      q = ((user_objects dsW).countP (fun rec => rec.consistent) : ℚ)
          / ((user_objects dsW).length : ℚ) * 100 ∧
      0 ≤ q ∧ q ≤ 100 ∧
      (q = 100 ↔ ∀ rec ∈ user_objects dsW, rec.consistent = true) :=
  ⟨by decide, (C7_consistency dsW).2.2.2.2 (by decide)⟩

/-- C8 as stated is false: in `dsC8` one row has selection "RGB" with a
null object, so the frequency table's grand total is 1 while the
contingency table (whose groupby drops null-keyed rows) has grand total 0. -/
theorem C8_counterexample :
    freqGrandTotal dsC8 = 1 ∧ contGrandTotal dsC8 = 0 := by
  constructor <;> decide

/-- C8 amended: the contingency table is complete and rectangular — every
observed (object, format) pair of the jointly non-null rows appears among
its labels and every cell is present (zero when unobserved); each row sums
to that object's number of non-null selections; the grand total counts the
rows with both object and selection non-null, which equals the frequency
table's grand total whenever every row with a non-null selection also has
a non-null object. -/
theorem C8_amended (ds : Dataset) :
    (∀ r ∈ ds.rows, ∀ o c, r.object = some o → r.selected_color_space = some c →
        o ∈ (object_color ds).rowLabels ∧ c ∈ (object_color ds).colLabels) ∧
    (∀ o, (objRow (object_color ds) o).sum = rowTotal ds o) ∧
    (contGrandTotal ds = (jointRows ds).length) ∧
    ((∀ r ∈ ds.rows, r.selected_color_space.isSome = true → r.object.isSome = true) →
        contGrandTotal ds = freqGrandTotal ds) := by
  refine ⟨?_, fun o => row_sum_eq ds o, grand_total_eq ds, ?_⟩
  · intro r hr o c ho hc
    constructor
    · exact (mem_rowLabels ds o).mpr ⟨r, hr, ho, by rw [hc]; rfl⟩
    · exact (mem_colLabels ds c).mpr ⟨r, hr, by rw [ho]; rfl, hc⟩
  · intro hyp
    rw [grand_total_eq ds]
    have hjoint : (jointRows ds).length
        = ds.rows.countP (fun r => r.object.isSome && r.selected_color_space.isSome) := by
      unfold jointRows
      rw [← List.countP_eq_length_filter]
    have hcongr : ds.rows.countP (fun r => r.object.isSome && r.selected_color_space.isSome)
        = ds.rows.countP (fun r => r.selected_color_space.isSome) := by
      apply List.countP_congr
      intro r hrmem
      constructor
      · intro hand
        exact (Bool.and_eq_true .. ▸ hand).2
      · intro hsel
        rw [Bool.and_eq_true]
        exact ⟨hyp r hrmem hsel, hsel⟩
    rw [hjoint, hcongr, ← selections_length, sum_color_counts]

/-- Witness for C8 at the concrete dataset `dsW`. -/
theorem C8_witness :
    (∀ r ∈ dsW.rows, r.selected_color_space.isSome = true → r.object.isSome = true) ∧
    contGrandTotal dsW = freqGrandTotal dsW :=
  ⟨by decide, (C8_amended dsW).2.2.2 (by decide)⟩

/-- C9: validation fails exactly when a mandatory column is absent, the
error lists precisely the absent mandatory columns (all of them, not just
the first), the pipeline then produces no analysis, and when both
mandatory columns are present validation passes and the full report is
produced. -/
theorem C9_validation (ds : Dataset) :
    ((∀ c ∈ required_columns, c ∈ ds.columns) → ∃ rep, runAnalysis ds = .ok rep) ∧
    ((∃ c ∈ required_columns, c ∉ ds.columns) →
        runAnalysis ds = .error (missing_columns ds)) ∧
    (∀ c, c ∈ missing_columns ds ↔ (c ∈ required_columns ∧ c ∉ ds.columns)) := by
  have hmem : ∀ c, c ∈ missing_columns ds ↔ (c ∈ required_columns ∧ c ∉ ds.columns) := by
    intro c
    unfold missing_columns
    rw [List.mem_filter]
    constructor
    · rintro ⟨h1, h2⟩
      refine ⟨h1, fun hmem => ?_⟩
      rw [Bool.not_eq_true', ← Bool.not_eq_true] at h2
      exact h2 (List.elem_eq_true_of_mem hmem)
    · rintro ⟨h1, h2⟩
      refine ⟨h1, ?_⟩
      rw [Bool.not_eq_true', ← Bool.not_eq_true]
      intro hcon
      exact h2 (List.mem_of_elem_eq_true hcon)
  refine ⟨?_, ?_, hmem⟩
  · intro hall
    have hnil : missing_columns ds = [] := by
      rw [List.eq_nil_iff_forall_not_mem]
      intro c hc
      rcases (hmem c).mp hc with ⟨h1, h2⟩
      exact h2 (hall c h1)
    unfold runAnalysis
    rw [if_pos hnil]
    exact ⟨_, rfl⟩
  · rintro ⟨c, hc1, hc2⟩
    have hne : missing_columns ds ≠ [] := by
      intro hnil
      have : c ∈ missing_columns ds := (hmem c).mpr ⟨hc1, hc2⟩
      rw [hnil] at this
      cases this
    unfold runAnalysis
    rw [if_neg hne]

/-- Witness for C9: the dataset lacking `object` halts with exactly that
column reported, and the complete dataset passes validation. -/
theorem C9_witness :
    runAnalysis dsC9 = .error (missing_columns dsC9) ∧
    missing_columns dsC9 = ["object"] ∧
    (∃ rep, runAnalysis dsW = .ok rep) :=
  ⟨(C9_validation dsC9).2.1 ⟨"object", by decide, by decide⟩, by decide,
    (C9_validation dsW).1 (by decide)⟩

/-- C10: for every dataset the contingency table's row and column labels
are strictly sorted in ascending lexicographic order, the per-object tests
run in exactly the row-label order, and the frequency table's counts are
non-increasing (descending-count order); on `dsOrd` the frequency table's
category order differs from the contingency table's column order, so the
two orderings are both deterministic but different. -/
theorem C10_ordering :
    (∀ ds : Dataset,
        (object_color ds).rowLabels.Sorted (· < ·) ∧
        (object_color ds).colLabels.Sorted (· < ·) ∧
        (perObjectTests ds).map (fun r => r.obj) = (object_color ds).rowLabels ∧
        ((color_counts ds).map Prod.snd).Sorted (fun a b => b ≤ a)) ∧
    ((color_counts dsOrd).map Prod.fst ≠ (object_color dsOrd).colLabels) := by
  constructor
  · intro ds
    refine ⟨sorted_rowLabels ds, sorted_colLabels ds, perObjectTests_objs ds, ?_⟩
    have h : (color_counts ds).Sorted countGe := List.sorted_insertionSort countGe _
    exact h.map Prod.snd (fun a b hab => hab)
  · intro heq
    have hs : ((color_counts dsOrd).map Prod.fst).Sorted (· < ·) := by
      rw [heq]
      exact sorted_colLabels dsOrd
    have hmap : (color_counts dsOrd).map Prod.fst = ["zzz", "aaa"] := by decide
    rw [hmap] at hs
    have hlt : ("zzz" : String) < "aaa" :=
      List.rel_of_sorted_cons hs _ (by decide)
    have hnlt : ¬ (("zzz" : String) < "aaa") := by
      rw [String.lt_iff_toList_lt]
      decide
    exact hnlt hlt

/-- Witness for C10 at the concrete dataset `dsW`. -/
theorem C10_witness :
    (object_color dsW).rowLabels.Sorted (· < ·) ∧
    (perObjectTests dsW).map (fun r => r.obj) = (object_color dsW).rowLabels :=
  ⟨(C10_ordering.1 dsW).1, (C10_ordering.1 dsW).2.2.1⟩

end ColorAnalysis
